import Mathlib

/-!
Shallow embedding of the Efficiency-Tracker event-processing core
(`src/processor.py`) and trend comparator (`src/compare.py`).

Modelling conventions:
* Python floats are modelled as exact rationals (`ℚ`); `round(x, 1)` is
  modelled as round-half-to-even on the exact rational value, which is the
  decimal semantics Python's `round` implements on the underlying value.
* Python dicts (including `defaultdict`) are modelled as association lists
  kept in insertion order, which is the iteration order Python guarantees.
* Python's stable sorts (`sorted`, `list.sort`) are modelled by a stable
  insertion sort; a stable sort's output is uniquely determined by the key
  order and the input order, so any stable algorithm is an exact model.
* ActivityWatch events (Python dicts) are modelled by a flat structure whose
  optional fields mirror the `data` sub-dict; `dict.get` with a default is
  modelled by `Option.getD` at each call site with the source's default.
-/

/-- Round a rational to the nearest integer, ties to even
(the rounding mode of Python's builtin `round`). -/
def roundHalfEven (q : ℚ) : ℤ :=
  let f : ℤ := ⌊q⌋
  let r : ℚ := q - (f : ℚ)
  if r < 1/2 then f
  else if 1/2 < r then f + 1
  else if f % 2 = 0 then f else f + 1

/-- Model of Python `round(q, 1)` (one decimal digit, ties to even). -/
def pyRound1 (q : ℚ) : ℚ := ((roundHalfEven (q * 10) : ℚ)) / 10

/-- Model of Python `int(q)` on a float value: truncation toward zero. -/
def pyTrunc (q : ℚ) : ℤ := if q < 0 then -⌊-q⌋ else ⌊q⌋

/-- Digits of a char list read as a natural number (caller checks `isDigit`). -/
def digitsToNat (cs : List Char) : ℕ := cs.foldl (fun n c => 10 * n + (c.toNat - 48)) 0

/-- Whitespace stripped from both ends of a char list (Python `str.strip()`). -/
def trimChars (cs : List Char) : List Char :=
  ((cs.dropWhile Char.isWhitespace).reverse.dropWhile Char.isWhitespace).reverse

/-- Model of Python `s.strip()`. -/
def pyStrip (s : String) : String := ⟨trimChars s.toList⟩

/-- Model of Python `int(s)` on a string: optional surrounding whitespace,
optional sign, then decimal digits; `none` models a raised `ValueError`.
(Underscore digit separators, accepted by Python, are not modelled; no input
in this development contains them.) -/
def pyInt (s : String) : Option ℤ :=
  match trimChars s.toList with
  | '-' :: ds => if ds ≠ [] ∧ ds.all Char.isDigit then some (-(digitsToNat ds : ℤ)) else none
  | '+' :: ds => if ds ≠ [] ∧ ds.all Char.isDigit then some ((digitsToNat ds : ℤ)) else none
  | ds => if ds ≠ [] ∧ ds.all Char.isDigit then some ((digitsToNat ds : ℤ)) else none

/-- Model of Python's `f"{n:02d}"` for a natural number. -/
def pad2 (n : ℕ) : String := if n < 10 then "0" ++ toString n else toString n

/-- `needle in hay` on Python strings (substring containment), over char lists. -/
def charsPrefixOf : List Char → List Char → Bool
  | [], _ => true
  | _ :: _, [] => false
  | a :: as, b :: bs => a = b && charsPrefixOf as bs

/-- Substring search used to model Python's `in` on strings. -/
def charsInfixOf (n : List Char) : List Char → Bool
  | [] => charsPrefixOf n []
  | b :: bs => charsPrefixOf n (b :: bs) || charsInfixOf n bs

/-- Model of Python `needle in hay` for strings. -/
def strIn (needle hay : String) : Bool := charsInfixOf needle.toList hay.toList

/-- One step of Python `str.split(sep)` over char lists, with the input
length as structural fuel (the fuel never runs out when it starts at the
length of `s`); `sep` is non-empty at every use site, as Python requires. -/
def splitGo (sep : List Char) : ℕ → List Char → List Char → List (List Char)
  | 0, s, cur => [cur.reverse ++ s]
  | fuel + 1, s, cur =>
    match s with
    | [] => [cur.reverse]
    | c :: rest =>
      if charsPrefixOf sep s then cur.reverse :: splitGo sep fuel (s.drop sep.length) []
      else splitGo sep fuel rest (c :: cur)

/-- Model of Python `s.split(sep)` for a non-empty separator. -/
def pySplit (s sep : String) : List String :=
  (splitGo sep.toList s.toList.length s.toList []).map (fun cs => (⟨cs⟩ : String))

/-- Model of Python `s.lower()` (ASCII case folding, which covers every
string compared in this code base). -/
def pyLower (s : String) : String := ⟨s.toList.map Char.toLower⟩

/-- Lexicographic code-point comparison of char lists: Python string `<=`,
which is also the order of Lean `String`s. -/
def charsLe : List Char → List Char → Bool
  | [], _ => true
  | _ :: _, [] => false
  | a :: as, b :: bs => if a = b then charsLe as bs else decide (a < b)

/-- Stable insertion of `a` into `l`: `a` goes after every element `b`
with `le b a`.  Together with `pySort` this models Python's stable sort. -/
def pyInsert {α : Type} (le : α → α → Bool) (a : α) : List α → List α
  | [] => [a]
  | b :: bs => if le b a then b :: pyInsert le a bs else a :: b :: bs

/-- Model of Python `sorted(l, ...)` / `l.sort(...)`: stable sort with
respect to the boolean "comes no later than" relation `le`.  Stable sorting
is extensionally unique, so insertion sort is an exact model of Timsort. -/
def pySort {α : Type} (le : α → α → Bool) (l : List α) : List α :=
  l.foldl (fun acc a => pyInsert le a acc) []

/-- Python dict update `m[k] = m.get(k, 0) + v` (`defaultdict` accumulation):
association list in insertion order, first occurrence of the key updated. -/
def addTo {κ ν : Type} [DecidableEq κ] [Add ν] : List (κ × ν) → κ → ν → List (κ × ν)
  | [], k, v => [(k, v)]
  | (k', v') :: m, k, v =>
    if k' = k then (k', v' + v) :: m else (k', v') :: addTo m k v

/-- Python dict update `m[k] = v` (assignment): value replaced in place,
key position preserved, new keys appended. -/
def setTo {κ ν : Type} [DecidableEq κ] : List (κ × ν) → κ → ν → List (κ × ν)
  | [], k, v => [(k, v)]
  | (k', v') :: m, k, v =>
    if k' = k then (k', v) :: m else (k', v') :: setTo m k v

/-- Python `m.get(k, d)` on an association-list dict. -/
def lookupD {κ ν : Type} [DecidableEq κ] : List (κ × ν) → κ → ν → ν
  | [], _, d => d
  | (k', v') :: m, k, d => if k' = k then v' else lookupD m k d

/-- Python `dict(pairs)` / `{k: v for k, v in pairs}`: later duplicates
overwrite the value but keep the first occurrence's position. -/
def dictOfPairs {κ ν : Type} [DecidableEq κ] (l : List (κ × ν)) : List (κ × ν) :=
  l.foldl (fun m p => setTo m p.1 p.2) []

/-- Sum of the values of an association-list dict (`sum(m.values())`). -/
def sumValues {κ : Type} (m : List (κ × ℚ)) : ℚ := (m.map Prod.snd).sum

/-- An ActivityWatch event: the `timestamp` and `duration` top-level keys and
the fields of the `data` sub-dict that the processed code reads.  A field
holding `none` models the key being absent from the Python dict. -/
structure Event where
  timestamp : String := ""
  duration : ℚ := 0
  app : Option String := none
  title : Option String := none
  url : Option String := none
  status : Option String := none
deriving DecidableEq

/-- Days in a month, Gregorian calendar (as validated by `datetime`). -/
def daysInMonth (y mo : ℕ) : ℕ :=
  if mo = 2 then (if y % 4 = 0 ∧ (y % 100 ≠ 0 ∨ y % 400 = 0) then 29 else 28)
  else if mo = 4 ∨ mo = 6 ∨ mo = 9 ∨ mo = 11 then 30 else 31

/-- Days from 0001-01-01 to the start of year `y` (proleptic Gregorian). -/
def daysBeforeYear (y : ℕ) : ℕ :=
  365 * (y - 1) + (y - 1) / 4 + (y - 1) / 400 - (y - 1) / 100

/-- Days from the start of year `y` to the start of month `mo`. -/
def daysBeforeMonth (y mo : ℕ) : ℕ :=
  ((List.range (mo - 1)).map (fun i => daysInMonth y (i + 1))).sum

/-- Seconds from 0001-01-01T00:00:00 to the given civil date-time. -/
def toEpochSecs (y mo d h mi s : ℕ) : ℕ :=
  (daysBeforeYear y + daysBeforeMonth y mo + (d - 1)) * 86400 + h * 3600 + mi * 60 + s

/-- Model of `parse_timestamp` (processor.py lines 317-360) on a time axis of
rational seconds since 0001-01-01.  The source tries timezone-aware formats
first and converts them to the ambient local timezone — behaviour that
depends on the machine's timezone and is outside a pure model — and then the
timezone-free formats `%Y-%m-%dT%H:%M:%S.%f` and `%Y-%m-%dT%H:%M:%S`, which
this definition implements (zero-padded fields, as ActivityWatch emits;
field validation as `datetime` performs it).  Returns `none` when the string
matches no format, modelling the source's final `return None`. -/
def parseTimestamp (ts : String) : Option ℚ :=
  let cs := ts.toList
  match cs.take 19 with
  | [y1, y2, y3, y4, c1, o1, o2, c2, d1, d2, c3, h1, h2, c4, i1, i2, c5, s1, s2] =>
    if c1 = '-' ∧ c2 = '-' ∧ c3 = 'T' ∧ c4 = ':' ∧ c5 = ':'
        ∧ ([y1, y2, y3, y4, o1, o2, d1, d2, h1, h2, i1, i2, s1, s2].all Char.isDigit) then
      let y := digitsToNat [y1, y2, y3, y4]
      let mo := digitsToNat [o1, o2]
      let d := digitsToNat [d1, d2]
      let h := digitsToNat [h1, h2]
      let mi := digitsToNat [i1, i2]
      let s := digitsToNat [s1, s2]
      if 1 ≤ y ∧ 1 ≤ mo ∧ mo ≤ 12 ∧ 1 ≤ d ∧ d ≤ daysInMonth y mo
          ∧ h ≤ 23 ∧ mi ≤ 59 ∧ s ≤ 59 then
        let base : ℚ := (toEpochSecs y mo d h mi s : ℚ)
        match cs.drop 19 with
        | [] => some base
        | '.' :: fr =>
          if fr ≠ [] ∧ fr.length ≤ 6 ∧ fr.all Char.isDigit then
            some (base + (digitsToNat fr : ℚ) / ((10 : ℚ) ^ fr.length))
          else none
        | _ => none
      else none
    else none
  | _ => none

/-- `datetime.hour` of a time point on the rational-seconds axis. -/
def hourOf (t : ℚ) : ℕ := (Int.toNat ⌊t⌋ / 3600) % 24

/-- `datetime.minute` of a time point on the rational-seconds axis. -/
def minuteOf (t : ℚ) : ℕ := (Int.toNat ⌊t⌋ / 60) % 60

/-- `dt.strftime("%H:%M")`. -/
def fmtHM (t : ℚ) : String := pad2 (hourOf t) ++ ":" ++ pad2 (minuteOf t)

/-- The timestamp-string order used by the builders'
`sorted(events, key=lambda e: e.get("timestamp", ""))`: Python compares the
raw strings by code point. -/
def tsLe (a b : Event) : Bool := charsLe a.timestamp.toList b.timestamp.toList

/-- `sorted(window_events, key=lambda e: e.get("timestamp", ""))`. -/
def pySortByTs (events : List Event) : List Event := pySort tsLe events

/-! ## AFK filtering (`processor.py`, class `AFKFilter`) -/

/-- `AFKFilter._get_not_afk_periods` (processor.py 417-438): the `(start, end)`
intervals of events whose `data.status` is `"not-afk"`, whose timestamp
parses (a parsed `datetime` is always truthy) and whose duration is
positive. -/
def notAfkPeriodOf (e : Event) : Option (ℚ × ℚ) :=
  if e.status = some "not-afk" then
    match parseTimestamp e.timestamp with
    | some start => if e.duration > 0 then some (start, start + e.duration) else none
    | none => none
  else none

/-- The period list itself: one interval per qualifying event, in order. -/
def getNotAfkPeriods (afkEvents : List Event) : List (ℚ × ℚ) :=
  afkEvents.filterMap notAfkPeriodOf

/-- `AFKFilter.is_in_active_period` (processor.py 440-465), with the filter's
`active_periods` passed explicitly: `True` when the period list is empty,
otherwise the strict half-open overlap test against some period. -/
def isInActivePeriod (periods : List (ℚ × ℚ)) (eventTime eventDuration : ℚ) : Bool :=
  if periods = [] then true
  else
    let eventEnd := eventTime + eventDuration
    periods.any (fun p => eventTime < p.2 ∧ eventEnd > p.1)

/-- `AFKFilter.filter_events` (processor.py 467-491), with the filter's
constructor inlined (`active_periods = _get_not_afk_periods(afk_events)`):
returns the input unchanged when there are no active periods, otherwise
keeps exactly the events whose timestamp parses and which pass
`is_in_active_period`. -/
def filterEvents (afkEvents : List Event) (events : List Event) : List Event :=
  let periods := getNotAfkPeriods afkEvents
  if periods = [] then events
  else events.filter (fun e =>
    match parseTimestamp e.timestamp with
    | none => false
    | some t => isInActivePeriod periods t e.duration)

/-! ## Session view (`build_session_view`, processor.py 103-179) -/

/-- A merged usage session (the `current_session` dict of the source). -/
structure Session where
  app : String
  start : ℚ
  stop : ℚ
  duration : ℚ
deriving DecidableEq

/-- The session-merging loop of `build_session_view` (processor.py 140-164),
over the already-sorted event list: events with unparsable timestamps are
skipped; a parsable event extends the open session when its app matches and
its gap from the session's end is at most `mergeGapSeconds` (end becomes the
max end seen, durations accumulate), and otherwise closes it. -/
def sessionLoop (mergeGapSeconds : ℚ) :
    List Event → Option Session → List Session → List Session
  | [], cur, done =>
    match cur with
    | none => done
    | some s => done ++ [s]
  | e :: es, cur, done =>
    match parseTimestamp e.timestamp with
    | none => sessionLoop mergeGapSeconds es cur done
    | some start =>
      let d := e.duration
      let stop := start + d
      let app := e.app.getD "Unknown"
      match cur with
      | none => sessionLoop mergeGapSeconds es (some ⟨app, start, stop, d⟩) done
      | some s =>
        if app = s.app ∧ start - s.stop ≤ mergeGapSeconds then
          sessionLoop mergeGapSeconds es
            (some ⟨s.app, s.start, max s.stop stop, s.duration + d⟩) done
        else
          sessionLoop mergeGapSeconds es (some ⟨app, start, stop, d⟩) (done ++ [s])

/-- The session list `build_session_view` computes before rendering
(processor.py 130-164): sort by raw timestamp, then merge. -/
def buildSessions (mergeGapSeconds : ℚ) (windowEvents : List Event) : List Session :=
  sessionLoop mergeGapSeconds (pySortByTs windowEvents) none []

/-- `build_session_view` (processor.py 103-179): the merged sessions of at
least `minSessionMinutes` minutes, rendered one per line. -/
def buildSessionView (windowEvents : List Event)
    (minSessionMinutes : ℕ := 10) (mergeGapSeconds : ℚ := 120) : String :=
  if windowEvents = [] then "（无连续使用记录）"
  else
    let sessions := buildSessions mergeGapSeconds windowEvents
    let minDurationSeconds : ℚ := (minSessionMinutes : ℚ) * 60
    let lines := sessions.filterMap (fun s =>
      if s.duration ≥ minDurationSeconds then
        some ("- " ++ s.app ++ ": " ++ toString (pyTrunc (s.duration / 60)) ++ "min ("
          ++ fmtHM s.start ++ "-" ++ fmtHM s.stop ++ ")")
      else none)
    if lines = [] then
      "（无超过 " ++ toString minSessionMinutes ++ " 分钟的连续使用记录）"
    else String.intercalate "\n" lines

/-! ## Hourly switches view (`build_hourly_switches`, processor.py 182-238) -/

/-- The switch test `prev_app is not None and app != prev_app`
(processor.py line 221). -/
def isSwitch (prevApp : Option String) (app : String) : Bool :=
  match prevApp with
  | some p => app ≠ p
  | none => false

/-- The switch-counting loop of `build_hourly_switches` (processor.py
212-223) over the sorted event list: `prevApp` is `prev_app`, `acc` the
`defaultdict(int)` keyed by hour of day.  Events with unparsable timestamps
are skipped without touching `prev_app`; a parsable event whose app (default
`""`) differs from the previous parsable event's app increments the counter
of its start hour. -/
def hourlySwitchLoop : List Event → Option String → List (ℕ × ℕ) → List (ℕ × ℕ)
  | [], _, acc => acc
  | e :: es, prevApp, acc =>
    match parseTimestamp e.timestamp with
    | none => hourlySwitchLoop es prevApp acc
    | some t =>
      let app := e.app.getD ""
      hourlySwitchLoop es (some app)
        (if isSwitch prevApp app then addTo acc (hourOf t) 1 else acc)

/-- `build_hourly_switches` (processor.py 182-238): sentinel for fewer than 2
events, sentinel when no switch was recorded, otherwise one line per hour
with switches (hours ascending), the count, and the high-switching marker on
every hour whose count equals the maximum when that count is at least 5. -/
def buildHourlySwitches (windowEvents : List Event) : String :=
  if windowEvents.length < 2 then "（数据不足，无法分析切换频率）"
  else
    let sortedEvents := pySortByTs windowEvents
    let hs := hourlySwitchLoop sortedEvents none []
    if hs = [] then "（无应用切换记录）"
    else
      let maxSwitches := if hs = [] then 0 else (hs.map Prod.snd).foldl Nat.max 0
      let lines := (pySort (fun a b : ℕ => a ≤ b) (hs.map Prod.fst)).map (fun hour =>
        let count := lookupD hs hour 0
        let highlight := if count = maxSwitches ∧ 5 ≤ count then " ← 切换频繁" else ""
        pad2 hour ++ ":00: " ++ toString count ++ "次" ++ highlight)
      String.intercalate "\n" lines

/-! ## Website summary (`build_website_summary`, processor.py 241-314) -/

/-- Model of `extract_domain` (processor.py 376-393).  The source reads
`urllib.parse.urlparse(url).netloc`; this definition computes the netloc for
URLs of the ordinary `scheme://host[/path…]` shape — the text after the
first `"//"` up to the next `/`, `?` or `#` — which is `urlparse`'s result
on every such URL.  A leading `"www."` is stripped and an empty result
becomes `"unknown"`, as in the source. -/
def extractDomain (url : String) : String :=
  match pySplit url "//" with
  | _ :: rest :: _ =>
    let netloc := rest.toList.takeWhile (fun c => ¬(c = '/' ∨ c = '?' ∨ c = '#'))
    let domain : List Char := if charsPrefixOf "www.".toList netloc then netloc.drop 4 else netloc
    if domain = [] then "unknown" else (⟨domain⟩ : String)
  | _ => "unknown"

/-- `build_website_summary` (processor.py 241-314): aggregate durations per
domain, partition into work/other by case-insensitive substring match
against `workDomains`, sort each partition by descending duration, render
the work section (top 5) and the other section (top 10, lines only for
entries of at least one whole minute). -/
def buildWebsiteSummary (browserEvents : List Event)
    (workDomains : List String) : String :=
  if browserEvents = [] then "（无浏览器使用记录）"
  else
    let domainTimes := browserEvents.foldl (fun m e =>
      let url := e.url.getD ""
      if url ≠ "" then addTo m (extractDomain url) e.duration else m) []
    if domainTimes = [] then "（无有效的网站访问记录）"
    else
      let isWork := fun (p : String × ℚ) =>
        workDomains.any (fun wd => strIn (pyLower wd) (pyLower p.1))
      let workSites := pySort (fun a b : String × ℚ => b.2 ≤ a.2) (domainTimes.filter isWork)
      let otherSites := pySort (fun a b : String × ℚ => b.2 ≤ a.2)
        (domainTimes.filter (fun p => ¬ isWork p))
      let workLines :=
        if workSites ≠ [] then
          "工作相关:" :: (workSites.take 5).map (fun p =>
            "  - " ++ p.1 ++ ": " ++ toString (pyTrunc (p.2 / 60)) ++ "min")
        else []
      let lines :=
        if otherSites ≠ [] then
          workLines ++ (if workLines ≠ [] then [""] else []) ++ ["其他:"]
            ++ (otherSites.take 10).filterMap (fun p =>
              let minutes := pyTrunc (p.2 / 60)
              if minutes ≥ 1 then
                some ("  - " ++ p.1 ++ ": " ++ toString minutes ++ "min")
              else none)
        else workLines
      if lines = [] then "（无有效的网站访问记录）"
      else String.intercalate "\n" lines

/-! ## Aggregation (`processor.py`, class `DataAggregator`) -/

/-- `DataAggregator.categorize_app` (processor.py 532-547): the first
category (in insertion order) one of whose patterns occurs, case
insensitively, in the app name; `"other"` otherwise. -/
def categorizeApp (categories : List (String × List String)) (appName : String) : String :=
  match categories.find? (fun c => c.2.any (fun a => strIn (pyLower a) (pyLower appName))) with
  | some c => c.1
  | none => "other"

/-- `DataAggregator.aggregate_by_app` (processor.py 549-567). -/
def aggregateByApp (events : List Event) : List (String × ℚ) :=
  events.foldl (fun m e => addTo m (e.app.getD "Unknown") e.duration) []

/-- `DataAggregator.aggregate_by_category` (processor.py 569-586). -/
def aggregateByCategory (categories : List (String × List String))
    (appTimes : List (String × ℚ)) : List (String × ℚ) :=
  appTimes.foldl (fun m p => addTo m (categorizeApp categories p.1) p.2) []

/-- `seconds_to_hours` (processor.py 363-373). -/
def secondsToHours (seconds : ℚ) : ℚ := pyRound1 (seconds / 3600)

/-! ## Trend comparison (`src/compare.py`) -/

/-- The `direction` string of `calculate_change`. -/
inductive Direction
  | up
  | down
  | same
deriving DecidableEq

/-- The dictionary returned by `calculate_change` (compare.py 13-49). -/
structure Change where
  current : ℚ
  previous : ℚ
  diff : ℚ
  percent : Option ℚ
  direction : Direction
deriving DecidableEq

/-- `calculate_change` (compare.py 13-49).  Note that the returned `diff`
field is rounded to one decimal while `percent` and the direction test use
the unrounded difference, exactly as in the source. -/
def calculateChange (current previous : ℚ) : Change :=
  let diff := current - previous
  if previous = 0 then
    { current := current, previous := previous, diff := pyRound1 diff,
      percent := none,
      direction := if current > 0 then Direction.up else Direction.same }
  else
    let percent := pyRound1 (diff / previous * 100)
    { current := current, previous := previous, diff := pyRound1 diff,
      percent := some percent,
      direction :=
        if |percent| < 1 then Direction.same
        else if diff > 0 then Direction.up
        else Direction.down }

/-- A per-application change: the `calculate_change` dict with the extra
`"app"` key added by `compare_stats`. -/
structure AppChange where
  change : Change
  app : String
deriving DecidableEq

/-- The statistics snapshot fields `compare_stats` reads: the top-level
scalars, the nested `editor.total_hours` and `browser.total_hours`, the
top-10 `by_app` pair list, and `views.hourly_switches` (the empty string
models an absent `views` key, matching `stats.get("views", {})`). -/
structure Stats where
  total_hours : ℚ := 0
  not_afk_hours : ℚ := 0
  editor_total_hours : ℚ := 0
  browser_total_hours : ℚ := 0
  by_app : List (String × ℚ) := []
  views_hourly_switches : String := ""
deriving DecidableEq

/-- `_count_total_switches` (compare.py 127-153): `None` for an empty or
"no data" (leading `（`) view, else the sum over lines containing `次` of
`int(line.split(":")[1].split("次")[0].strip())`, lines whose parse raises
being skipped; `None` when the sum is not positive. -/
def countTotalSwitches (stats : Stats) : Option ℤ :=
  let hourlySwitches := stats.views_hourly_switches
  if hourlySwitches = "" ∨ charsPrefixOf "（".toList hourlySwitches.toList then none
  else
    let total := (((pySplit hourlySwitches "\n")).map (fun line =>
      if strIn "次" line then
        match (pySplit line ":").drop 1 with
        | [] => (0 : ℤ)
        | part :: _ =>
          match pyInt (pyStrip (((pySplit part "次")).headD "")) with
          | some n => n
          | none => 0
      else 0)).sum
    if total > 0 then some total else none

/-- The `app_changes` loop of `compare_stats` (compare.py 103-109): one pass
over the current dict's items, with the previous value looked up
(default 0), keeping entries with current or previous at least 0.5 hours. -/
def appChangesLoop : List (String × ℚ) → List (String × ℚ) → List AppChange
  | [], _ => []
  | (app, currentHours) :: rest, previousApps =>
    let previousHours := lookupD previousApps app 0
    if currentHours ≥ (0.5 : ℚ) ∨ previousHours ≥ (0.5 : ℚ) then
      { change := calculateChange currentHours previousHours, app := app }
        :: appChangesLoop rest previousApps
    else appChangesLoop rest previousApps

/-- The descending-absolute-diff order of
`app_changes.sort(key=lambda x: abs(x["diff"]), reverse=True)`. -/
def absDiffDescLe (a b : AppChange) : Bool := |b.change.diff| ≤ |a.change.diff|

/-- The comparison dictionary returned by `compare_stats`. -/
structure Comparison where
  total_hours : Change
  not_afk_hours : Change
  editor_hours : Change
  browser_hours : Change
  activity_rate : Change
  top_app_changes : List AppChange
  total_switches : Option Change
deriving DecidableEq

/-- `compare_stats` (compare.py 52-124). -/
def compareStats (currentStats previousStats : Stats) : Comparison :=
  let currentRate :=
    if currentStats.total_hours > 0 then
      currentStats.not_afk_hours / currentStats.total_hours * 100
    else 0
  let previousRate :=
    if previousStats.total_hours > 0 then
      previousStats.not_afk_hours / previousStats.total_hours * 100
    else 0
  let currentApps := dictOfPairs currentStats.by_app
  let previousApps := dictOfPairs previousStats.by_app
  let appChanges := appChangesLoop currentApps previousApps
  let currentSwitches := countTotalSwitches currentStats
  let previousSwitches := countTotalSwitches previousStats
  { total_hours := calculateChange currentStats.total_hours previousStats.total_hours,
    not_afk_hours := calculateChange currentStats.not_afk_hours previousStats.not_afk_hours,
    editor_hours := calculateChange currentStats.editor_total_hours previousStats.editor_total_hours,
    browser_hours := calculateChange currentStats.browser_total_hours previousStats.browser_total_hours,
    activity_rate := calculateChange (pyRound1 currentRate) (pyRound1 previousRate),
    top_app_changes := (pySort absDiffDescLe appChanges).take 5,
    total_switches :=
      match currentSwitches, previousSwitches with
      | some c, some p => some (calculateChange (c : ℚ) (p : ℚ))
      | _, _ => none }

/-! ## Shared lemmas -/

theorem pyInsert_mem {α : Type} (le : α → α → Bool) (a x : α) (l : List α) :
    x ∈ pyInsert le a l ↔ x = a ∨ x ∈ l := by
  induction l with
  | nil => simp [pyInsert]
  | cons b bs ih =>
    by_cases h : le b a = true
    · simp only [pyInsert, h, if_true, List.mem_cons, ih]
      tauto
    · simp only [pyInsert, h, if_false, Bool.false_eq_true, List.mem_cons]

theorem roundHalfEven_spec (q : ℚ) (z : ℤ) (h1 : (z : ℚ) ≤ q) (h2 : q < z + 1) :
    roundHalfEven q =
      if q - z < 1/2 then z
      else if 1/2 < q - z then z + 1
      else if z % 2 = 0 then z else z + 1 := by
  unfold roundHalfEven
  rw [Int.floor_eq_iff.mpr ⟨h1, h2⟩]

theorem roundHalfEven_intCast (w : ℤ) : roundHalfEven ((w : ℚ)) = w := by
  rw [roundHalfEven_spec ((w : ℚ)) w (le_refl _) (by norm_num)]
  norm_num

theorem pyRound1_intCast (z : ℤ) : pyRound1 ((z : ℚ)) = (z : ℚ) := by
  unfold pyRound1
  rw [show ((z : ℚ) * 10) = (((z * 10 : ℤ) : ℚ)) by push_cast; ring, roundHalfEven_intCast]
  push_cast
  ring

theorem pyInsert_perm {α : Type} (le : α → α → Bool) (a : α) (l : List α) :
    (pyInsert le a l).Perm (a :: l) := by
  induction l with
  | nil => simp [pyInsert]
  | cons b bs ih =>
    by_cases h : le b a = true
    · simp only [pyInsert, h, if_true]
      exact (ih.cons b).trans (List.Perm.swap a b bs)
    · simp [pyInsert, h]

theorem pySort_perm {α : Type} (le : α → α → Bool) (l : List α) :
    (pySort le l).Perm l := by
  suffices h : ∀ acc : List α,
      (l.foldl (fun acc a => pyInsert le a acc) acc).Perm (acc ++ l) by
    simpa using h []
  induction l with
  | nil => simp
  | cons b bs ih =>
    intro acc
    simp only [List.foldl_cons]
    refine (ih (pyInsert le b acc)).trans ?_
    have h1 : (pyInsert le b acc ++ bs).Perm ((b :: acc) ++ bs) :=
      (pyInsert_perm le b acc).append_right bs
    refine h1.trans ?_
    simp only [List.cons_append]
    exact (List.perm_middle).symm

theorem pySort_mem {α : Type} (le : α → α → Bool) (x : α) (l : List α) :
    x ∈ pySort le l ↔ x ∈ l :=
  (pySort_perm le l).mem_iff

theorem sumValues_addTo {κ : Type} [DecidableEq κ] (m : List (κ × ℚ)) (k : κ) (v : ℚ) :
    sumValues (addTo m k v) = sumValues m + v := by
  induction m with
  | nil => simp [addTo, sumValues]
  | cons p rest ih =>
    obtain ⟨k', v'⟩ := p
    by_cases h : k' = k
    · simp [addTo, h, sumValues]
      ring
    · simp [addTo, h, sumValues] at ih ⊢
      linarith

theorem sumValues_foldl_addTo {α κ : Type} [DecidableEq κ]
    (key : α → κ) (val : α → ℚ) (l : List α) :
    ∀ acc : List (κ × ℚ),
      sumValues (l.foldl (fun m x => addTo m (key x) (val x)) acc) =
        sumValues acc + (l.map val).sum := by
  induction l with
  | nil => simp
  | cons x xs ih =>
    intro acc
    simp only [List.foldl_cons, List.map_cons, List.sum_cons]
    rw [ih (addTo acc (key x) (val x)), sumValues_addTo]
    ring

/-! ## Claims -/

/-- C8 counterexample: the claim says the `diff` field equals
`current - previous`, but `calculate_change` rounds it to one decimal:
at `current = 0.25`, `previous = 0` (0.25 is exactly representable as a
binary float, and Python's `round(0.25, 1)` is `0.2`) the field is
`0.2 ≠ 0.25`. -/
theorem C8_diff_field_is_rounded :
    (calculateChange (0.25 : ℚ) 0).diff ≠ (0.25 : ℚ) - 0 := by
  have hr : roundHalfEven (((0.25 : ℚ) - 0) * 10) = 2 := by
    rw [roundHalfEven_spec (((0.25 : ℚ) - 0) * 10) 2 (by norm_num) (by norm_num)]
    norm_num
  simp only [calculateChange, if_pos rfl, pyRound1, hr]
  norm_num

/-- C8 (amended): `calculate_change` echoes its inputs; the `diff` field is
`round(current - previous, 1)`; with `previous == 0` the percent is `None`
and the direction is `"up"` iff `current > 0` else `"same"`; otherwise the
percent is `round(diff/previous*100, 1)` with direction `"same"` when its
absolute value is below 1 and otherwise by the sign of the (unrounded)
diff.  The three example evaluations of the claim hold as stated. -/
theorem C8_calculate_change_spec (current previous : ℚ) :
    (calculateChange current previous).current = current
  ∧ (calculateChange current previous).previous = previous
  ∧ (calculateChange current previous).diff = pyRound1 (current - previous)
  ∧ (previous = 0 →
      (calculateChange current previous).percent = none
      ∧ (calculateChange current previous).direction =
          (if current > 0 then Direction.up else Direction.same))
  ∧ (previous ≠ 0 →
      (calculateChange current previous).percent =
        some (pyRound1 ((current - previous) / previous * 100))
      ∧ (calculateChange current previous).direction =
          (if |pyRound1 ((current - previous) / previous * 100)| < 1 then Direction.same
           else if current - previous > 0 then Direction.up
           else Direction.down))
  ∧ calculateChange 10 0 =
      { current := 10, previous := 0, diff := 10, percent := none,
        direction := Direction.up }
  ∧ calculateChange 0 0 =
      { current := 0, previous := 0, diff := 0, percent := none,
        direction := Direction.same }
  ∧ calculateChange 100 100 =
      { current := 100, previous := 100, diff := 0, percent := some 0,
        direction := Direction.same } := by
  have h10 : pyRound1 ((10 : ℚ)) = 10 := by
    have := pyRound1_intCast 10
    push_cast at this
    simpa using this
  have h0 : pyRound1 ((0 : ℚ)) = 0 := by
    have := pyRound1_intCast 0
    push_cast at this
    simpa using this
  have h00 : pyRound1 ((100 : ℚ) - 100) = 0 := by
    have := pyRound1_intCast 0
    push_cast at this
    simpa using this
  have hp : pyRound1 (((100 : ℚ) - 100) / 100 * 100) = 0 := by
    have := pyRound1_intCast 0
    push_cast at this
    simpa using this
  refine ⟨?_, ?_, ?_, ?_, ?_, ?_, ?_, ?_⟩
  · by_cases h : previous = 0 <;> simp [calculateChange, h]
  · by_cases h : previous = 0 <;> simp [calculateChange, h]
  · by_cases h : previous = 0 <;> simp [calculateChange, h]
  · intro h
    simp [calculateChange, h]
  · intro h
    simp [calculateChange, h]
  · simp [calculateChange, h10]
  · simp [calculateChange, h0]
  · simp only [calculateChange, if_neg (by norm_num : (100 : ℚ) ≠ 0), hp, h00]
    norm_num [abs_lt]

/-- C8 witness: the amended theorem applied at `(3, 2)`, a point with a
nonzero previous value: percent `50.0`, direction `"up"`. -/
theorem C8_calculate_change_spec_witness :
    (calculateChange 3 2).percent = some 50
    ∧ (calculateChange 3 2).direction = Direction.up := by
  have h := (C8_calculate_change_spec 3 2).2.2.2.2.1 (by norm_num)
  have h50 : pyRound1 (((3 : ℚ) - 2) / 2 * 100) = 50 := by
    have := pyRound1_intCast 50
    push_cast at this
    rw [show (((3 : ℚ) - 2) / 2 * 100) = 50 by norm_num]
    simpa using this
  refine ⟨?_, ?_⟩
  · rw [h.1, h50]
  · rw [h.2, h50]
    norm_num

/-- C4: if the away-event list yields no active intervals, `filter_events`
is the identity on every input list — the early return fires before any
per-event timestamp parsing. -/
theorem C4_filter_identity_no_periods (afkEvents events : List Event)
    (h : getNotAfkPeriods afkEvents = []) :
    filterEvents afkEvents events = events := by
  unfold filterEvents
  simp [h]

/-- C4 witness: an away list whose single event is not `not-afk` yields no
periods, and filtering a list holding an event with an unparsable timestamp
returns it unchanged. -/
theorem C4_filter_identity_no_periods_witness :
    getNotAfkPeriods [{ timestamp := "2024-01-15T09:00:00", duration := 600, status := some "afk" }] = []
    ∧ filterEvents
        [{ timestamp := "2024-01-15T09:00:00", duration := 600, status := some "afk" }]
        [{ timestamp := "not-a-timestamp", duration := 60, app := some "VS Code" }]
      = [{ timestamp := "not-a-timestamp", duration := 60, app := some "VS Code" }] := by
  refine ⟨by decide, C4_filter_identity_no_periods _ _ (by decide)⟩

/-- C10: for every away-event list and input list, `filter_events` returns a
subsequence of its input (each output element an element of the input, in
input order), so in particular its length never exceeds the input's; the
embedding is pure, so inputs are not mutated. -/
theorem C10_filter_returns_subsequence (afkEvents events : List Event) :
    (filterEvents afkEvents events).Sublist events
    ∧ (filterEvents afkEvents events).length ≤ events.length := by
  have hs : (filterEvents afkEvents events).Sublist events := by
    unfold filterEvents
    by_cases h : getNotAfkPeriods afkEvents = []
    · simp [h]
    · simp only [h, if_neg, if_false]
      exact List.filter_sublist events
  exact ⟨hs, hs.length_le⟩

/-- C7: category aggregation conserves the summed duration, both for an
arbitrary app→duration map and for the composite
`by_category (by_app events)`. -/
theorem C7_category_aggregation_conserves_total
    (categories : List (String × List String)) :
    (∀ appTimes : List (String × ℚ),
      sumValues (aggregateByCategory categories appTimes) = sumValues appTimes)
    ∧ ∀ events : List Event,
        sumValues (aggregateByCategory categories (aggregateByApp events)) =
          sumValues (aggregateByApp events) := by
  have key : ∀ appTimes : List (String × ℚ),
      sumValues (aggregateByCategory categories appTimes) = sumValues appTimes := by
    intro appTimes
    unfold aggregateByCategory
    rw [sumValues_foldl_addTo (fun p => categorizeApp categories p.1) Prod.snd]
    simp [sumValues]
  exact ⟨key, fun events => key (aggregateByApp events)⟩

/-- C5: with at least one active interval, `is_in_active_period` is true
exactly when the half-open event interval strictly overlaps some interval
(`event_time < interval_end` and `event_end > interval_start`); with no
intervals it is unconditionally true.  Consequently `filter_events` with
non-empty intervals drops every parsable event lying entirely outside all
intervals and keeps every parsable positive-duration event lying entirely
inside one interval. -/
theorem C5_overlap_test_and_filter (afkEvents : List Event) :
    (∀ t d : ℚ, getNotAfkPeriods afkEvents = [] →
      isInActivePeriod (getNotAfkPeriods afkEvents) t d = true)
  ∧ (∀ t d : ℚ, getNotAfkPeriods afkEvents ≠ [] →
      (isInActivePeriod (getNotAfkPeriods afkEvents) t d = true ↔
        ∃ p ∈ getNotAfkPeriods afkEvents, t < p.2 ∧ t + d > p.1))
  ∧ (∀ (events : List Event) (e : Event) (t : ℚ),
      getNotAfkPeriods afkEvents ≠ [] →
      e ∈ events → parseTimestamp e.timestamp = some t →
      (∀ p ∈ getNotAfkPeriods afkEvents, t + e.duration ≤ p.1 ∨ p.2 ≤ t) →
      e ∉ filterEvents afkEvents events)
  ∧ (∀ (events : List Event) (e : Event) (t : ℚ),
      e ∈ events → parseTimestamp e.timestamp = some t → 0 < e.duration →
      (∃ p ∈ getNotAfkPeriods afkEvents, p.1 ≤ t ∧ t + e.duration ≤ p.2) →
      e ∈ filterEvents afkEvents events) := by
  refine ⟨?_, ?_, ?_, ?_⟩
  · intro t d h
    simp [isInActivePeriod, h]
  · intro t d h
    simp only [isInActivePeriod, if_neg h, List.any_eq_true, decide_eq_true_eq]
  · intro events e t hne hmem hparse hout hcontra
    unfold filterEvents at hcontra
    rw [if_neg hne] at hcontra
    have hpred := (List.mem_filter.mp hcontra).2
    rw [hparse] at hpred
    simp only [isInActivePeriod, if_neg hne, List.any_eq_true, decide_eq_true_eq] at hpred
    obtain ⟨p, hp, h1, h2⟩ := hpred
    rcases hout p hp with h | h
    · linarith
    · linarith
  · intro events e t hmem hparse hdur ⟨p, hp, hp1, hp2⟩
    have hne : getNotAfkPeriods afkEvents ≠ [] := by
      intro hnil
      rw [hnil] at hp
      exact absurd hp (List.not_mem_nil p)
    unfold filterEvents
    rw [if_neg hne]
    refine List.mem_filter.mpr ⟨hmem, ?_⟩
    rw [hparse]
    simp only [isInActivePeriod, if_neg hne, List.any_eq_true, decide_eq_true_eq]
    exact ⟨p, hp, by linarith, by linarith⟩

/-- C5 witness: one hour-long active interval 09:00-10:00; an event at 09:10
(entirely inside) is kept and an event at 11:00 (entirely outside) is
dropped, via the C5 theorem at these concrete inputs. -/
theorem C5_overlap_test_and_filter_witness :
    ({ timestamp := "2024-01-15T09:10:00", duration := 60, app := some "A" } : Event) ∈
      filterEvents [{ timestamp := "2024-01-15T09:00:00", duration := 3600, status := some "not-afk" }]
        [{ timestamp := "2024-01-15T09:10:00", duration := 60, app := some "A" }, { timestamp := "2024-01-15T11:00:00", duration := 60, app := some "B" }]
    ∧ ({ timestamp := "2024-01-15T11:00:00", duration := 60, app := some "B" } : Event) ∉
      filterEvents [{ timestamp := "2024-01-15T09:00:00", duration := 3600, status := some "not-afk" }]
        [{ timestamp := "2024-01-15T09:10:00", duration := 60, app := some "A" }, { timestamp := "2024-01-15T11:00:00", duration := 60, app := some "B" }] := by
  have hp1 : parseTimestamp "2024-01-15T09:10:00" = some ((63840906600 : ℕ) : ℚ) := rfl
  have hp2 : parseTimestamp "2024-01-15T11:00:00" = some ((63840913200 : ℕ) : ℚ) := rfl
  have hp0 : parseTimestamp "2024-01-15T09:00:00" = some ((63840906000 : ℕ) : ℚ) := rfl
  have hper : getNotAfkPeriods
      [{ timestamp := "2024-01-15T09:00:00", duration := 3600, status := some "not-afk" }] =
      [(((63840906000 : ℕ) : ℚ), ((63840906000 : ℕ) : ℚ) + 3600)] := by
    simp [getNotAfkPeriods, notAfkPeriodOf, hp0]
  have hne : getNotAfkPeriods
      [{ timestamp := "2024-01-15T09:00:00", duration := 3600, status := some "not-afk" }] ≠ [] := by
    rw [hper]
    simp
  constructor
  · refine (C5_overlap_test_and_filter _).2.2.2 _ _ (((63840906600 : ℕ) : ℚ))
      (by simp) hp1 (by norm_num) ?_
    refine ⟨(((63840906000 : ℕ) : ℚ), ((63840906000 : ℕ) : ℚ) + 3600), ?_, ?_, ?_⟩
    · rw [hper]
      simp
    · push_cast
      norm_num
    · push_cast
      norm_num
  · refine (C5_overlap_test_and_filter _).2.2.1 _ _ (((63840913200 : ℕ) : ℚ))
      hne (by simp) hp2 ?_
    intro p hp
    rw [hper] at hp
    rcases List.mem_singleton.mp hp with rfl
    right
    push_cast
    norm_num

/-- C1 (code bug): on a well-formed hourly-switches view, the extractor's
`line.split(":")[1]` selects the `"00"` minutes token — not the count after
the second colon — so every well-formed `HH:00: N次` line contributes
`int("00") = 0`, the total stays 0, and `_count_total_switches` returns
`None` instead of the per-line sum; `compare_stats` therefore omits
`total_switches` even when both snapshots render switch lines.  The last
conjunct traces the faulty token selection on the claim's example line. -/
theorem C1_switch_count_extraction_returns_none :
    countTotalSwitches { views_hourly_switches := "09:00: 3次" } = none
    ∧ countTotalSwitches { views_hourly_switches := "09:00: 3次\n10:00: 8次 ← 切换频繁" } = none
    ∧ (compareStats { views_hourly_switches := "09:00: 3次\n10:00: 8次 ← 切换频繁" }
        { views_hourly_switches := "09:00: 2次" }).total_switches = none
    ∧ pyStrip ((pySplit (((pySplit "09:00: 3次" ":").drop 1).headD "") "次").headD "") = "00" := by
  refine ⟨by decide, by decide, by decide, by decide⟩

theorem appChangesLoop_eq_filterMap (cur prev : List (String × ℚ)) :
    appChangesLoop cur prev = cur.filterMap (fun p =>
      if p.2 ≥ (0.5 : ℚ) ∨ lookupD prev p.1 0 ≥ (0.5 : ℚ) then
        some { change := calculateChange p.2 (lookupD prev p.1 0), app := p.1 }
      else none) := by
  induction cur with
  | nil => rfl
  | cons p rest ih =>
    obtain ⟨app, hours⟩ := p
    by_cases h : hours ≥ (0.5 : ℚ) ∨ lookupD prev app 0 ≥ (0.5 : ℚ)
    · simp [appChangesLoop, h, ih]
    · simp [appChangesLoop, h, ih]

/-- C2 counterexample: the application `"X"` appears in the previous
period's top-10 with 2.0 hours (≥ 0.5) and is absent from the current
period's top-10, so the claim says it is a retained candidate and must
appear in `top_app_changes`; the code iterates only over the current
period's apps and returns an empty list. -/
theorem C2_previous_only_app_dropped :
    (compareStats { by_app := [] } { by_app := [("X", 2)] }).top_app_changes = []
    ∧ ("X", (2 : ℚ)) ∈ ({ by_app := [("X", 2)] } : Stats).by_app := by
  refine ⟨by decide, by decide⟩

/-- C2 (amended): per-application deltas are computed only for applications
in the *current* period's top-10 `by_app` list (an app present only in the
previous period's top-10 is ignored); for each such app the previous value
is looked up in the previous top-10 (0 when absent), the app is retained
iff its current or previous value is at least 0.5 hours, and the result is
the first 5 of the retained changes stably sorted by descending absolute
rounded diff.  Consequently every reported app occurs among the current
period's top-10 app names. -/
theorem C2_top_app_changes_current_only (cs ps : Stats) :
    (compareStats cs ps).top_app_changes =
      (pySort absDiffDescLe ((dictOfPairs cs.by_app).filterMap (fun p =>
        if p.2 ≥ (0.5 : ℚ) ∨ lookupD (dictOfPairs ps.by_app) p.1 0 ≥ (0.5 : ℚ) then
          some { change := calculateChange p.2 (lookupD (dictOfPairs ps.by_app) p.1 0), app := p.1 }
        else none))).take 5
    ∧ ∀ ac ∈ (compareStats cs ps).top_app_changes,
        ac.app ∈ (dictOfPairs cs.by_app).map Prod.fst := by
  constructor
  · show (pySort absDiffDescLe (appChangesLoop (dictOfPairs cs.by_app) (dictOfPairs ps.by_app))).take 5 = _
    rw [appChangesLoop_eq_filterMap]
  · intro ac hac
    have h1 : ac ∈ pySort absDiffDescLe (appChangesLoop (dictOfPairs cs.by_app) (dictOfPairs ps.by_app)) :=
      (List.take_sublist 5 _).subset hac
    have h2 : ac ∈ appChangesLoop (dictOfPairs cs.by_app) (dictOfPairs ps.by_app) :=
      (pySort_mem _ _ _).mp h1
    rw [appChangesLoop_eq_filterMap] at h2
    obtain ⟨p, hp, hfp⟩ := List.mem_filterMap.mp h2
    by_cases h : p.2 ≥ (0.5 : ℚ) ∨ lookupD (dictOfPairs ps.by_app) p.1 0 ≥ (0.5 : ℚ)
    · rw [if_pos h] at hfp
      have : ac.app = p.1 := by
        cases hfp
        rfl
      rw [this]
      exact List.mem_map_of_mem Prod.fst hp
    · rw [if_neg h] at hfp
      exact absurd hfp (by simp)

/-- C2 witness: the amended theorem applied to concrete snapshots whose
current top-10 is `[("A", 1.0)]`: the single reported change is for `"A"`,
and clause two places `"A"` among the current period's app names. -/
theorem C2_top_app_changes_current_only_witness :
    ("A" : String) ∈ (dictOfPairs ({ by_app := [("A", 1)] } : Stats).by_app).map Prod.fst := by
  refine (C2_top_app_changes_current_only { by_app := [("A", 1)] } { by_app := [] }).2
    { change := calculateChange 1 0, app := "A" } ?_
  show ({ change := calculateChange 1 0, app := "A" } : AppChange) ∈
    (pySort absDiffDescLe (appChangesLoop (dictOfPairs [("A", 1)]) (dictOfPairs []))).take 5
  norm_num [appChangesLoop, dictOfPairs, setTo, lookupD, pySort, pyInsert]

theorem websiteSummarySubMinuteEval (s : ℚ) (h0 : 0 ≤ s) (h60 : s < 60) :
    buildWebsiteSummary [{ timestamp := "2024-01-15T09:00:00", duration := 2700, url := some "https://example.com/" }, { timestamp := "2024-01-15T10:00:00", duration := s, url := some "https://other.com/" }] ["example.com"] = "工作相关:\n  - example.com: 45min\n\n其他:" := by
  have hm : pyTrunc (s / 60) = 0 := by
    unfold pyTrunc
    rw [if_neg (not_lt.mpr (div_nonneg h0 (by norm_num)))]
    exact Int.floor_eq_zero_iff.mpr ⟨div_nonneg h0 (by norm_num), (div_lt_one (by norm_num)).mpr h60⟩
  have h45 : pyTrunc ((2700 : ℚ) / 60) = 45 := by
    have he : ((2700 : ℚ) / 60) = ((45 : ℤ) : ℚ) := by norm_num
    unfold pyTrunc
    rw [he, if_neg (by norm_num), Int.floor_intCast]
  have hdom1 : extractDomain "https://example.com/" = "example.com" := by decide
  have hdom2 : extractDomain "https://other.com/" = "other.com" := by decide
  simp [buildWebsiteSummary, addTo, hdom1, hdom2, strIn, charsInfixOf, charsPrefixOf, pyLower, pySort, pyInsert, hm, h45]
  decide

/-- C3 counterexample: at the claim's own input
(`work_domains=["example.com"]`, durations example.com 2700s / other.com
45s) the rendered summary still contains the `其他:` header — the source
appends it whenever the other partition is non-empty, even though every
other-partition line is dropped as sub-minute — so the claim's "no `其他:`
header appears" is false. -/
theorem C3_other_header_still_rendered :
    buildWebsiteSummary [{ timestamp := "2024-01-15T09:00:00", duration := 2700, url := some "https://example.com/" }, { timestamp := "2024-01-15T10:00:00", duration := 45, url := some "https://other.com/" }] ["example.com"] = "工作相关:\n  - example.com: 45min\n\n其他:"
    ∧ strIn "其他:" (buildWebsiteSummary [{ timestamp := "2024-01-15T09:00:00", duration := 2700, url := some "https://example.com/" }, { timestamp := "2024-01-15T10:00:00", duration := 45, url := some "https://other.com/" }] ["example.com"]) = true := by
  have h := websiteSummarySubMinuteEval 45 (by norm_num) (by norm_num)
  refine ⟨h, ?_⟩
  rw [h]
  decide

/-- C3 (amended): sub-minute entries of the `other` partition are dropped
from the rendered other section only, but when the other partition is
non-empty the `其他:` header itself is still emitted, with no lines beneath
it when every other-partition domain renders below one minute: with
`work_domains=["example.com"]` and durations example.com 2700s and
other.com `s` seconds for any `0 ≤ s < 60`, the output is exactly
`工作相关:`, `  - example.com: 45min`, a blank line, then a bare `其他:`
header. -/
theorem C3_sub_minute_other_entries_dropped (s : ℚ) (h0 : 0 ≤ s) (h60 : s < 60) :
    buildWebsiteSummary [{ timestamp := "2024-01-15T09:00:00", duration := 2700, url := some "https://example.com/" }, { timestamp := "2024-01-15T10:00:00", duration := s, url := some "https://other.com/" }] ["example.com"] = "工作相关:\n  - example.com: 45min\n\n其他:" :=
  websiteSummarySubMinuteEval s h0 h60

/-- C3 witness: the amended theorem at `s = 45`. -/
theorem C3_sub_minute_other_entries_dropped_witness :
    buildWebsiteSummary [{ timestamp := "2024-01-15T09:00:00", duration := 2700, url := some "https://example.com/" }, { timestamp := "2024-01-15T10:00:00", duration := 45, url := some "https://other.com/" }] ["example.com"] = "工作相关:\n  - example.com: 45min\n\n其他:" :=
  C3_sub_minute_other_entries_dropped 45 (by norm_num) (by norm_num)

/-- C6: for two same-application parsable events whose raw timestamps are in
order, a gap of exactly the merge tolerance (the default 120 s) between the
second event's start and the first session's end merges them into one
session whose end is the maximum event end seen and whose duration is the
sum of the two event durations (possibly exceeding end - start when the
events overlap); a gap of tolerance + 1 yields two sessions. -/
theorem C6_session_gap_boundary (e1 e2 : Event) (t1 t2 : ℚ) (a : String)
    (hp1 : parseTimestamp e1.timestamp = some t1)
    (hp2 : parseTimestamp e2.timestamp = some t2)
    (ha1 : e1.app = some a) (ha2 : e2.app = some a)
    (hts : tsLe e1 e2 = true) :
    (t2 - (t1 + e1.duration) = 120 →
      buildSessions 120 [e1, e2] =
        [{ app := a, start := t1, stop := max (t1 + e1.duration) (t2 + e2.duration),
           duration := e1.duration + e2.duration }])
    ∧ (t2 - (t1 + e1.duration) = 121 →
      buildSessions 120 [e1, e2] =
        [{ app := a, start := t1, stop := t1 + e1.duration, duration := e1.duration },
         { app := a, start := t2, stop := t2 + e2.duration, duration := e2.duration }]) := by
  constructor
  · intro hgap
    have hle : t2 - (t1 + e1.duration) ≤ 120 := le_of_eq hgap
    simp [buildSessions, pySortByTs, pySort, pyInsert, hts, sessionLoop, hp1, hp2, ha1, ha2, hle]
  · intro hgap
    have hgt : ¬(t2 - (t1 + e1.duration) ≤ 120) := by
      rw [hgap]
      norm_num
    simp [buildSessions, pySortByTs, pySort, pyInsert, hts, sessionLoop, hp1, hp2, ha1, ha2, hgt]

/-- C6 witness: 09:00:00+1800 s followed by 09:32:00+1800 s (gap exactly
120 s) merges into one 3600 s session ending 10:02:00, while a second event
at 09:32:01 (gap 121 s) yields two sessions. -/
theorem C6_session_gap_boundary_witness :
    buildSessions 120 [{ timestamp := "2024-01-15T09:00:00", duration := 1800, app := some "VS Code" }, { timestamp := "2024-01-15T09:32:00", duration := 1800, app := some "VS Code" }] =
      [{ app := "VS Code", start := ((63840906000 : ℕ) : ℚ), stop := ((63840909720 : ℕ) : ℚ), duration := 3600 }]
    ∧ buildSessions 120 [{ timestamp := "2024-01-15T09:00:00", duration := 1800, app := some "VS Code" }, { timestamp := "2024-01-15T09:32:01", duration := 1800, app := some "VS Code" }] =
      [{ app := "VS Code", start := ((63840906000 : ℕ) : ℚ), stop := ((63840907800 : ℕ) : ℚ), duration := 1800 },
       { app := "VS Code", start := ((63840907921 : ℕ) : ℚ), stop := ((63840909721 : ℕ) : ℚ), duration := 1800 }] := by
  constructor
  · have h := (C6_session_gap_boundary
      { timestamp := "2024-01-15T09:00:00", duration := 1800, app := some "VS Code" }
      { timestamp := "2024-01-15T09:32:00", duration := 1800, app := some "VS Code" }
      ((63840906000 : ℕ) : ℚ) ((63840907920 : ℕ) : ℚ) "VS Code"
      rfl rfl rfl rfl (by decide)).1 (by push_cast; norm_num)
    rw [h]
    simp only [Session.mk.injEq, List.cons.injEq, and_true, List.nil_eq]
    push_cast
    norm_num
  · have h := (C6_session_gap_boundary
      { timestamp := "2024-01-15T09:00:00", duration := 1800, app := some "VS Code" }
      { timestamp := "2024-01-15T09:32:01", duration := 1800, app := some "VS Code" }
      ((63840906000 : ℕ) : ℚ) ((63840907921 : ℕ) : ℚ) "VS Code"
      rfl rfl rfl rfl (by decide)).2 (by push_cast; norm_num)
    rw [h]
    simp only [Session.mk.injEq, List.cons.injEq, and_true, List.nil_eq]
    push_cast
    norm_num

/-! ## Specification-side view of the hourly-switch histogram (for C9) -/

/-- The hour and application (default `""`) of each event whose timestamp
parses, in list order: the events the switch loop actually inspects. -/
def parsedHourApps (events : List Event) : List (ℕ × String) :=
  events.filterMap (fun e => (parseTimestamp e.timestamp).map (fun t => (hourOf t, e.app.getD "")))

/-- The switch loop restated over the parsed `(hour, app)` list. -/
def switchFold : List (ℕ × String) → Option String → List (ℕ × ℕ) → List (ℕ × ℕ)
  | [], _, acc => acc
  | p :: l, prev, acc =>
    switchFold l (some p.2) (if isSwitch prev p.2 then addTo acc p.1 1 else acc)

/-- Declarative switch count at hour `h` starting from a previous app. -/
def auxSwitchCount : Option String → List (ℕ × String) → ℕ → ℕ
  | _, [], _ => 0
  | prev, p :: l, h =>
    (if isSwitch prev p.2 ∧ p.1 = h then 1 else 0) + auxSwitchCount (some p.2) l h

/-- The switches of a parsed `(hour, app)` list, as the claim states them:
the pairs of consecutive entries whose application names differ, each switch
charged to the hour of its second (current) entry. -/
def switchPairs (l : List (ℕ × String)) : List ((ℕ × String) × (ℕ × String)) :=
  (l.zip l.tail).filter (fun pr => pr.2.2 ≠ pr.1.2)

/-- Specification-side switch count of an event list at hour `h`. -/
def specSwitchCount (events : List Event) (h : ℕ) : ℕ :=
  (switchPairs (parsedHourApps (pySortByTs events))).countP (fun pr => pr.2.1 = h)

/-- `build_hourly_switches` as the claim describes it: the insufficient-data
sentinel below 2 events; the no-switches sentinel when no consecutive
parsable events differ; otherwise one line per hour with a nonzero count,
hours ascending, each line `HH:00: N次`, with the high-switching marker on
every hour whose count equals the maximum when that maximum is at least 5. -/
def buildHourlySwitchesSpec (events : List Event) : String :=
  if events.length < 2 then "（数据不足，无法分析切换频率）"
  else if switchPairs (parsedHourApps (pySortByTs events)) = [] then "（无应用切换记录）"
  else
    let hours := (List.range 24).filter (fun h => specSwitchCount events h ≠ 0)
    let maxCount := (hours.map (specSwitchCount events)).foldl Nat.max 0
    String.intercalate "\n" (hours.map (fun h =>
      pad2 h ++ ":00: " ++ toString (specSwitchCount events h) ++ "次"
        ++ (if specSwitchCount events h = maxCount ∧ 5 ≤ maxCount then " ← 切换频繁" else "")))

theorem hourlySwitchLoop_eq_switchFold (es : List Event) :
    ∀ (prev : Option String) (acc : List (ℕ × ℕ)),
      hourlySwitchLoop es prev acc = switchFold (parsedHourApps es) prev acc := by
  induction es with
  | nil => intro prev acc; rfl
  | cons e es ih =>
    intro prev acc
    cases hpe : parseTimestamp e.timestamp with
    | none => simp [hourlySwitchLoop, parsedHourApps, hpe, ih]
    | some t =>
      simp only [hourlySwitchLoop, parsedHourApps, hpe, Option.map_some, List.filterMap_cons]
      rw [ih]
      rfl

theorem lookupD_addTo_one (m : List (ℕ × ℕ)) (k h : ℕ) :
    lookupD (addTo m k 1) h 0 = lookupD m h 0 + if k = h then 1 else 0 := by
  induction m with
  | nil =>
    by_cases hk : k = h <;> simp [addTo, lookupD, hk]
  | cons p m ih =>
    obtain ⟨k', v'⟩ := p
    by_cases h1 : k' = k
    · subst h1
      by_cases h2 : k' = h <;> simp [addTo, lookupD, h2]
    · by_cases h2 : k' = h
      · subst h2
        have : ¬(k = k') := fun hcon => h1 hcon.symm
        simp [addTo, lookupD, h1, this]
      · simp [addTo, lookupD, h1, h2, ih]

theorem lookupD_switchFold (l : List (ℕ × String)) :
    ∀ (prev : Option String) (acc : List (ℕ × ℕ)) (h : ℕ),
      lookupD (switchFold l prev acc) h 0 = lookupD acc h 0 + auxSwitchCount prev l h := by
  induction l with
  | nil => intro prev acc h; simp [switchFold, auxSwitchCount]
  | cons p l ih =>
    intro prev acc h
    by_cases hs : isSwitch prev p.2 = true
    · by_cases hh : p.1 = h
      · simp [switchFold, auxSwitchCount, hs, hh, ih, lookupD_addTo_one]
        omega
      · simp [switchFold, auxSwitchCount, hs, hh, ih, lookupD_addTo_one]
    · simp [switchFold, auxSwitchCount, hs, ih]

theorem auxSwitchCount_some_eq (l : List (ℕ × String)) (h : ℕ) :
    ∀ (a : String) (x : ℕ),
      auxSwitchCount (some a) l h =
        List.countP (fun pr => decide (pr.2.1 = h) && decide (pr.2.2 ≠ pr.1.2))
          (((x, a) :: l).zip l) := by
  induction l with
  | nil => intro a x; simp [auxSwitchCount]
  | cons p l ih =>
    intro a x
    obtain ⟨hh, b⟩ := p
    rw [show (((x, a) :: (hh, b) :: l).zip ((hh, b) :: l)) =
        ((x, a), (hh, b)) :: (((hh, b) :: l).zip l) from rfl]
    rw [List.countP_cons]
    simp only [auxSwitchCount, isSwitch, ih b hh]
    by_cases h1 : b ≠ a
    · by_cases h2 : hh = h <;> simp [h1, h2] <;> omega
    · by_cases h2 : hh = h <;> simp [h1, h2]

theorem auxSwitchCount_none_eq (l : List (ℕ × String)) (h : ℕ) :
    auxSwitchCount none l h = (switchPairs l).countP (fun pr => pr.2.1 = h) := by
  rw [switchPairs, List.countP_filter]
  cases l with
  | nil => simp [auxSwitchCount]
  | cons p l =>
    have : auxSwitchCount none (p :: l) h = auxSwitchCount (some p.2) l h := by
      simp [auxSwitchCount, isSwitch]
    rw [this, auxSwitchCount_some_eq l h p.2 p.1]
    rfl

theorem mem_keys_addTo (m : List (ℕ × ℕ)) (k h : ℕ) :
    h ∈ (addTo m k 1).map Prod.fst ↔ h ∈ m.map Prod.fst ∨ h = k := by
  induction m with
  | nil => simp [addTo]
  | cons p m ih =>
    obtain ⟨k', v'⟩ := p
    by_cases h1 : k' = k
    · subst h1
      simp [addTo]
      tauto
    · simp [addTo, h1, ih]
      tauto

theorem mem_keys_switchFold (l : List (ℕ × String)) :
    ∀ (prev : Option String) (acc : List (ℕ × ℕ)) (h : ℕ),
      h ∈ (switchFold l prev acc).map Prod.fst ↔
        h ∈ acc.map Prod.fst ∨ auxSwitchCount prev l h ≠ 0 := by
  induction l with
  | nil => intro prev acc h; simp [switchFold, auxSwitchCount]
  | cons p l ih =>
    intro prev acc h
    by_cases hs : isSwitch prev p.2 = true
    · by_cases hh : p.1 = h
      · have hcount : auxSwitchCount prev (p :: l) h ≠ 0 := by
          simp only [auxSwitchCount, if_pos (And.intro hs hh)]
          omega
        have hh' : h = p.1 := hh.symm
        simp only [switchFold, if_pos hs, ih, mem_keys_addTo]
        tauto
      · have : ¬(isSwitch prev p.2 = true ∧ p.1 = h) := fun hc => hh hc.2
        simp only [switchFold, auxSwitchCount, if_pos hs, if_neg this, ih, mem_keys_addTo]
        constructor
        · rintro (( hm | he ) | hne)
          · exact Or.inl hm
          · exact absurd he.symm hh
          · exact Or.inr (by omega)
        · rintro (hm | hne)
          · exact Or.inl (Or.inl hm)
          · exact Or.inr (by omega)
    · have : ¬(isSwitch prev p.2 = true ∧ p.1 = h) := fun hc => hs hc.1
      simp only [switchFold, auxSwitchCount, if_neg hs, if_neg this, ih]
      constructor
      · rintro (hm | hne)
        · exact Or.inl hm
        · exact Or.inr (by omega)
      · rintro (hm | hne)
        · exact Or.inl hm
        · exact Or.inr (by omega)

theorem auxSwitchCount_ne_zero_mem (l : List (ℕ × String)) :
    ∀ (prev : Option String) (h : ℕ),
      auxSwitchCount prev l h ≠ 0 → h ∈ l.map Prod.fst := by
  induction l with
  | nil => intro prev h hne; simp [auxSwitchCount] at hne
  | cons p l ih =>
    intro prev h hne
    by_cases hc : isSwitch prev p.2 = true ∧ p.1 = h
    · simp [hc.2]
    · simp only [auxSwitchCount, if_neg hc, zero_add] at hne
      simp [ih (some p.2) h hne]

theorem keys_addTo_eq (m : List (ℕ × ℕ)) (k : ℕ) :
    (addTo m k 1).map Prod.fst =
      if k ∈ m.map Prod.fst then m.map Prod.fst else m.map Prod.fst ++ [k] := by
  induction m with
  | nil => simp [addTo]
  | cons p m ih =>
    obtain ⟨k', v'⟩ := p
    by_cases h1 : k' = k
    · subst h1
      simp [addTo]
    · have : ¬(k = k') := fun hc => h1 hc.symm
      by_cases h2 : k ∈ m.map Prod.fst <;>
        simp [addTo, h1, this, ih, h2]

theorem nodup_keys_addTo (m : List (ℕ × ℕ)) (k : ℕ)
    (hm : (m.map Prod.fst).Nodup) : ((addTo m k 1).map Prod.fst).Nodup := by
  rw [keys_addTo_eq]
  by_cases h : k ∈ m.map Prod.fst
  · simpa [h] using hm
  · simp only [h, if_false]
    rw [List.nodup_append]
    exact ⟨hm, List.nodup_singleton k, by simpa using h⟩

theorem nodup_keys_switchFold (l : List (ℕ × String)) :
    ∀ (prev : Option String) (acc : List (ℕ × ℕ)),
      (acc.map Prod.fst).Nodup → ((switchFold l prev acc).map Prod.fst).Nodup := by
  induction l with
  | nil => intro prev acc hacc; exact hacc
  | cons p l ih =>
    intro prev acc hacc
    by_cases hs : isSwitch prev p.2 = true
    · simp only [switchFold, if_pos hs]
      exact ih _ _ (nodup_keys_addTo acc p.1 hacc)
    · simp only [switchFold, if_neg hs]
      exact ih _ _ hacc

theorem pos_addTo (m : List (ℕ × ℕ)) (k : ℕ)
    (hm : ∀ p ∈ m, 0 < p.2) : ∀ p ∈ addTo m k 1, 0 < p.2 := by
  induction m with
  | nil =>
    intro p hp
    simp [addTo] at hp
    simp [hp]
  | cons q m ih =>
    obtain ⟨k', v'⟩ := q
    intro p hp
    by_cases h1 : k' = k
    · subst h1
      simp only [addTo, if_pos rfl] at hp
      rcases List.mem_cons.mp hp with rfl | hmem
      · simp
      · exact hm p (List.mem_cons_of_mem _ hmem)
    · simp only [addTo, if_neg h1] at hp
      rcases List.mem_cons.mp hp with rfl | hmem
      · exact hm (k', v') (by simp)
      · exact ih (fun q hq => hm q (List.mem_cons_of_mem _ hq)) p hmem

theorem pos_switchFold (l : List (ℕ × String)) :
    ∀ (prev : Option String) (acc : List (ℕ × ℕ)),
      (∀ p ∈ acc, 0 < p.2) → ∀ p ∈ switchFold l prev acc, 0 < p.2 := by
  induction l with
  | nil => intro prev acc hacc; exact hacc
  | cons q l ih =>
    intro prev acc hacc
    by_cases hs : isSwitch prev q.2 = true
    · simp only [switchFold, if_pos hs]
      exact ih _ _ (pos_addTo acc q.1 hacc)
    · simp only [switchFold, if_neg hs]
      exact ih _ _ hacc

theorem mem_keys_iff_lookupD_pos (m : List (ℕ × ℕ)) (h : ℕ)
    (hm : ∀ p ∈ m, 0 < p.2) : h ∈ m.map Prod.fst ↔ lookupD m h 0 ≠ 0 := by
  induction m with
  | nil => simp [lookupD]
  | cons p m ih =>
    obtain ⟨k, v⟩ := p
    by_cases h1 : k = h
    · subst h1
      have hv : 0 < v := hm (k, v) (by simp)
      simp [lookupD]
      omega
    · have := ih (fun q hq => hm q (List.mem_cons_of_mem _ hq))
      simp [lookupD, h1, this, Ne.symm h1]

theorem pyInsert_sorted_nat (a : ℕ) (l : List ℕ) (hl : l.Pairwise (· ≤ ·)) :
    (pyInsert (fun x y : ℕ => x ≤ y) a l).Pairwise (· ≤ ·) := by
  induction l with
  | nil => simp [pyInsert]
  | cons b bs ih =>
    rcases List.pairwise_cons.mp hl with ⟨hb, hbs⟩
    by_cases h : b ≤ a
    · simp only [pyInsert, decide_eq_true h, if_true]
      refine List.pairwise_cons.mpr ⟨?_, ih hbs⟩
      intro x hx
      rcases (pyInsert_mem _ a x bs).mp hx with rfl | hxbs
      · exact h
      · exact hb x hxbs
    · have hab : a ≤ b := by omega
      simp only [pyInsert, decide_eq_false h, if_false, Bool.false_eq_true]
      refine List.pairwise_cons.mpr ⟨?_, hl⟩
      intro x hx
      rcases List.mem_cons.mp hx with rfl | hxbs
      · exact hab
      · exact le_trans hab (hb x hxbs)

theorem pySort_sorted_nat (l : List ℕ) :
    (pySort (fun x y : ℕ => x ≤ y) l).Pairwise (· ≤ ·) := by
  suffices h : ∀ acc : List ℕ, acc.Pairwise (· ≤ ·) →
      (l.foldl (fun acc a => pyInsert (fun x y : ℕ => x ≤ y) a acc) acc).Pairwise (· ≤ ·) by
    exact h [] (List.Pairwise.nil)
  induction l with
  | nil => intro acc hacc; exact hacc
  | cons b bs ih =>
    intro acc hacc
    exact ih _ (pyInsert_sorted_nat b acc hacc)

theorem assoc_keys_eta (m : List (ℕ × ℕ)) (hm : (m.map Prod.fst).Nodup) :
    (m.map Prod.fst).map (fun k => (k, lookupD m k 0)) = m := by
  induction m with
  | nil => rfl
  | cons p rest ih =>
    obtain ⟨k, v⟩ := p
    rcases List.pairwise_cons.mp hm with ⟨hk, hrest⟩
    simp only [List.map_cons]
    have h1 : lookupD ((k, v) :: rest) k 0 = v := by simp [lookupD]
    have h2 : (rest.map Prod.fst).map (fun k' => (k', lookupD ((k, v) :: rest) k' 0)) =
        (rest.map Prod.fst).map (fun k' => (k', lookupD rest k' 0)) := by
      refine List.map_congr_left ?_
      intro k' hk'
      have : ¬(k = k') := fun hc => (hk k' hk') hc
      simp [lookupD, this]
    rw [h1, h2, ih hrest]

theorem foldl_max_perm {l₁ l₂ : List ℕ} (p : l₁.Perm l₂) (b : ℕ) :
    l₁.foldl Nat.max b = l₂.foldl Nat.max b := by
  induction p generalizing b with
  | nil => rfl
  | cons x _ ih => simp only [List.foldl_cons, ih]
  | swap x y l =>
    have hmx : ∀ p q r : ℕ, Nat.max (Nat.max p q) r = Nat.max (Nat.max p r) q := by
      intro p q r
      simp only [Nat.max_def]
      split_ifs <;> omega
    simp only [List.foldl_cons]
    congr 1
    exact hmx b y x
  | trans _ _ ih1 ih2 => rw [ih1, ih2]

theorem switchFold_nil_iff (ps : List (ℕ × String)) :
    switchFold ps none [] = [] ↔ switchPairs ps = [] := by
  constructor
  · intro hnil
    rw [List.eq_nil_iff_forall_not_mem]
    intro pr hpr
    have hcnt : (switchPairs ps).countP (fun q => q.2.1 = pr.2.1) ≠ 0 := by
      have hpos : 0 < (switchPairs ps).countP (fun q => q.2.1 = pr.2.1) :=
        List.countP_pos_iff.mpr ⟨pr, hpr, by simp⟩
      omega
    have hmem : pr.2.1 ∈ (switchFold ps none []).map Prod.fst := by
      rw [mem_keys_switchFold]
      right
      rw [auxSwitchCount_none_eq]
      exact hcnt
    rw [hnil] at hmem
    simp at hmem
  · intro hpairs
    have hkeys : (switchFold ps none []).map Prod.fst = [] := by
      rw [List.eq_nil_iff_forall_not_mem]
      intro h hmem
      rw [mem_keys_switchFold] at hmem
      rcases hmem with hm | hne
      · simp at hm
      · rw [auxSwitchCount_none_eq, hpairs] at hne
        simp at hne
    exact List.map_eq_nil_iff.mp hkeys

theorem hourOf_lt (t : ℚ) : hourOf t < 24 := Nat.mod_lt _ (by norm_num)

theorem mem_parsedHourApps_fst_lt (es : List Event) (h : ℕ)
    (hmem : h ∈ (parsedHourApps es).map Prod.fst) : h < 24 := by
  obtain ⟨q, hq, hqeq⟩ := List.mem_map.mp hmem
  obtain ⟨e, _, hfe⟩ := List.mem_filterMap.mp hq
  cases hpe : parseTimestamp e.timestamp with
  | none =>
    rw [hpe] at hfe
    exact absurd hfe (by simp)
  | some t =>
    rw [hpe] at hfe
    simp at hfe
    subst hqeq
    rw [← hfe]
    exact hourOf_lt t

/-- C9: `build_hourly_switches` behaves exactly as the claim describes —
fewer than 2 input events yield the insufficient-data sentinel; otherwise a
switch is counted whenever a parsable event's application differs from the
immediately preceding parsable event's application (the first parsable
event never counts), charged to the hour of the current event; the
no-switches sentinel appears when there is no such pair; otherwise one line
per hour with a nonzero count is rendered in ascending hour order as
`HH:00: N次`, and the high-switching marker is appended to every hour whose
count equals the maximum when that maximum is at least 5 (all tied hours,
not only the first).  Stated as equality with the claim-side rendering
`buildHourlySwitchesSpec`. -/
theorem C9_hourly_switches_refines_claim (events : List Event) :
    buildHourlySwitches events = buildHourlySwitchesSpec events := by
  simp only [buildHourlySwitches, buildHourlySwitchesSpec]
  by_cases hlen : events.length < 2
  · rw [if_pos hlen, if_pos hlen]
  · rw [if_neg hlen, if_neg hlen]
    rw [hourlySwitchLoop_eq_switchFold]
    by_cases hnil : switchFold (parsedHourApps (pySortByTs events)) none [] = []
    · rw [if_pos hnil, if_pos ((switchFold_nil_iff _).mp hnil)]
    · rw [if_neg hnil,
        if_neg (fun hp => hnil ((switchFold_nil_iff _).mpr hp))]
      have hcnt : ∀ h : ℕ,
          lookupD (switchFold (parsedHourApps (pySortByTs events)) none []) h 0 =
            specSwitchCount events h := by
        intro h
        rw [lookupD_switchFold]
        simp only [lookupD, Nat.zero_add]
        rw [auxSwitchCount_none_eq]
        rfl
      have hpos : ∀ p ∈ switchFold (parsedHourApps (pySortByTs events)) none [], 0 < p.2 :=
        pos_switchFold _ none [] (by simp)
      have hnodup : ((switchFold (parsedHourApps (pySortByTs events)) none []).map Prod.fst).Nodup :=
        nodup_keys_switchFold _ none [] (by simp)
      have hkeys : pySort (fun a b : ℕ => a ≤ b)
            ((switchFold (parsedHourApps (pySortByTs events)) none []).map Prod.fst) =
          (List.range 24).filter (fun h => specSwitchCount events h ≠ 0) := by
        refine List.eq_of_perm_of_sorted ?_ (pySort_sorted_nat _) ?_
        · rw [List.perm_ext_iff_of_nodup
            ((pySort_perm _ _).nodup_iff.mpr hnodup) ((List.nodup_range 24).filter _)]
          intro h
          rw [pySort_mem]
          constructor
          · intro hmem
            have hlt : h < 24 := by
              have hor := (mem_keys_switchFold _ none [] h).mp hmem
              rcases hor with hm | hne
              · simp at hm
              · exact mem_parsedHourApps_fst_lt _ h
                  (auxSwitchCount_ne_zero_mem _ none h hne)
            have hcz : specSwitchCount events h ≠ 0 := by
              rw [← hcnt h]
              exact (mem_keys_iff_lookupD_pos _ h hpos).mp hmem
            simp [List.mem_filter, List.mem_range, hlt, hcz]
          · intro hmem
            simp only [List.mem_filter, List.mem_range, decide_eq_true_eq] at hmem
            exact (mem_keys_iff_lookupD_pos _ h hpos).mpr (by rw [hcnt h]; exact hmem.2)
        · exact List.Pairwise.sublist (List.filter_sublist _) (List.pairwise_le_range 24)
      have hvals : (switchFold (parsedHourApps (pySortByTs events)) none []).map Prod.snd =
          ((switchFold (parsedHourApps (pySortByTs events)) none []).map Prod.fst).map
            (fun k => lookupD (switchFold (parsedHourApps (pySortByTs events)) none []) k 0) := by
        conv_lhs => rw [← assoc_keys_eta _ hnodup]
        rw [List.map_map]
        rfl
      have hperm : ((switchFold (parsedHourApps (pySortByTs events)) none []).map Prod.fst).Perm
          ((List.range 24).filter (fun h => specSwitchCount events h ≠ 0)) :=
        hkeys ▸ (pySort_perm _ _).symm
      have hmax : List.foldl Nat.max 0
            ((switchFold (parsedHourApps (pySortByTs events)) none []).map Prod.snd) =
          List.foldl Nat.max 0
            (((List.range 24).filter (fun h => specSwitchCount events h ≠ 0)).map
              (specSwitchCount events)) := by
        rw [hvals, foldl_max_perm (hperm.map _) 0]
        congr 1
        exact List.map_congr_left (fun h _ => hcnt h)
      rw [if_neg hnil, hkeys, hmax]
      congr 1
      refine List.map_congr_left ?_
      intro h hmem
      rw [hcnt h]
      congr 1
      refine if_congr ?_ rfl rfl
      constructor
      · rintro ⟨heq, hge⟩
        exact ⟨heq, heq ▸ hge⟩
      · rintro ⟨heq, hge⟩
        exact ⟨heq, heq ▸ hge⟩
